import Mathlib

/-!
Shallow embedding of `src/fishbuilder.py` (the evolutionary compiler-flag
search engine) and verification of its specification claims.

Strings from the Python side are modelled as `List Char`; Python exceptions
are modelled by `Option`/`none` results; the outcomes of external processes
(the toolchain, the benchmark workload) are parameters of the embedded
functions, since the Python code only observes them through exit codes,
file existence and captured output text.
-/

namespace Fishbuilder

/-! ## Catalog loading (lines 34-39 of fishbuilder.py)

`options = []; for line in data: options.append([None] + line.split(' '))`
Each input line (already stripped of its newline) is split on single spaces
— Python's `str.split(' ')` with an explicit separator keeps empty pieces
and returns `['']` for the empty string — and the sentinel `None` is
prepended. An option is therefore `Option (List Char)`: `none` is the
sentinel, `some s` a concrete flag string. -/

/-- Python `line.split(sep)` with an explicit one-character separator:
splits on every occurrence of `sep`, keeping empty pieces, and returns a
one-element list containing the empty string for empty input. -/
def pySplit (sep : Char) : List Char → List (List Char)
  | [] => [[]]
  | c :: cs =>
    if c = sep then [] :: pySplit sep cs
    else
      match pySplit sep cs with
      | [] => [[c]]
      | w :: ws => (c :: w) :: ws

/-- The `options` table built at lines 34-39: one group per input line,
`none` (the sentinel) prepended to the space-split tokens of the line. -/
def loadOptions (lines : List (List Char)) : List (List (Option (List Char))) :=
  lines.map (fun line => none :: (pySplit ' ' line).map some)

/-! ## Genome decoding (lines 81-86, `individual_to_parameters`)

`for idx, val in enumerate(individual): if options[idx][val] is not None:
parameters.append(options[idx][val])`. The loop pairs genome position `idx`
with group `options[idx]`; an out-of-range index is a Python `IndexError`,
modelled as `none`. -/

/-- Embedding of `individual_to_parameters`: walk the genome and the option
groups in parallel; a gene selecting the sentinel (`None`) emits nothing,
any other gene emits its option string; indexing past either list is an
`IndexError`, modelled as `none`. -/
def individual_to_parameters :
    List (List (Option (List Char))) → List Nat → Option (List (List Char))
  | _, [] => some []
  | [], _ :: _ => none
  | grp :: os, v :: vs =>
    match grp.get? v with
    | none => none
    | some none => individual_to_parameters os vs
    | some (some s) => (individual_to_parameters os vs).map (fun rest => s :: rest)

/-- Modelled from the spec's words for §4.2 `decode`: for each gene
position in group order, emit the selected option exactly when the gene is
not the sentinel index 0. Used to compare against
`individual_to_parameters`. -/
def decodeSpec : List (List (Option (List Char))) → List Nat → List (List Char)
  | _, [] => []
  | [], _ :: _ => []
  | grp :: os, v :: vs =>
    if v = 0 then decodeSpec os vs
    else
      match grp.get? v with
      | some (some s) => s :: decodeSpec os vs
      | _ => decodeSpec os vs

/-! ## Genome validity

`validGenome g os = true` states that genome `g` has exactly one gene per
group of `os` and each gene indexes inside its group — the invariant of
claim C3. -/

/-- Decidable genome validity: same length as the catalog and every gene
strictly below its group's size. -/
def validGenome : List Nat → List (List (Option (List Char))) → Bool
  | [], [] => true
  | v :: vs, grp :: os => decide (v < grp.length) && validGenome vs os
  | _, _ => false

/-! ## Benchmark output parsing (lines 63-77, `bench_engine`)

All `samples` runs append their combined stdout/stderr to one temporary
file; the file is then read line by line. A line on which
`re.search('Nodes/second', line)` matches contributes
`int(re.sub('[^0-9]','', mo.string))`: `mo.string` is the WHOLE line, so
every digit of the line is kept and concatenated. `int('')` (a marker line
with no digit at all) raises `ValueError`, modelled as `none`. -/

/-- Does `pat` occur at the very start of `s`? (helper for the substring
search performed by `re.search` with a literal pattern). -/
def startsWithL : List Char → List Char → Bool
  | [], _ => true
  | _ :: _, [] => false
  | p :: ps, c :: cs => (p = c) && startsWithL ps cs

/-- Does `pat` occur anywhere inside `s`? `re.search` with the literal
pattern `'Nodes/second'` is exactly this substring test. -/
def containsSub (pat : List Char) : List Char → Bool
  | [] => startsWithL pat []
  | c :: cs => startsWithL pat (c :: cs) || containsSub pat cs

/-- The fixed throughput marker searched for in each output line. -/
def marker : List Char := "Nodes/second".toList

/-- Value of a digit string: Python `int` on a string of decimal digits. -/
def digitsToNat (ds : List Char) : Nat :=
  ds.foldl (fun a c => a * 10 + (c.toNat - 48)) 0

/-- Python `int(s)` for `s` obtained by deleting all non-digits: raises
(`none`) on the empty string, otherwise the decimal value. -/
def pyInt (ds : List Char) : Option Nat :=
  if ds.isEmpty then none else some (digitsToNat ds)

/-- Embedding of the parsing loop of `bench_engine` over the combined
output lines: every line containing the marker contributes one sample, the
concatenation of all digits of the line; other lines contribute nothing;
a marker line without any digit raises `ValueError` (`none`). -/
def bench_engine : List (List Char) → Option (List Nat)
  | [] => some []
  | line :: rest =>
    if containsSub marker line then
      match pyInt (line.filter Char.isDigit) with
      | none => none
      | some n => (bench_engine rest).map (fun l => n :: l)
    else bench_engine rest

/-- `bench_engine` at the granularity of the `samples` workload runs: each
run appends its output lines to the single shared temporary file, so the
parsed buffer is the concatenation of the runs' outputs in run order. -/
def bench_engine_runs (runs : List (List (List Char))) : Option (List Nat) :=
  bench_engine runs.flatten

/-- Specification-side characterisation of the parsed samples: the
marker-bearing lines of the buffer, in order, each mapped to the value of
its concatenated digits. -/
def benchSpecLines (content : List (List Char)) : List Nat :=
  content.filterMap (fun line =>
    if containsSub marker line then some (digitsToNat (line.filter Char.isDigit))
    else none)

/-! ## Evaluation (lines 90-97, `eval_one_max`)

`executable = build(...); if os.path.isfile(executable):
fitness = max(bench_engine(executable, 3)); os.remove(executable)
else: fitness = 0; return [fitness]`.

The external world is abstracted by `exeExists` (did the toolchain leave an
executable at the temporary path) and by the benchmark oracle
`bench : Nat → Option (List Nat)` giving the samples of a
`bench_engine(executable, n)` call (`none` when that call raises). The
result records the fitness channel (`none` = an exception escaped
`eval_one_max`) and whether the built executable is still on disk
afterwards. -/

/-- Python `max(l)`: the fold of binary `max` over a nonempty list, a
`ValueError` (`none`) on the empty list. -/
def pyMax : List Nat → Option Nat
  | [] => none
  | x :: xs => some (xs.foldl Nat.max x)

/-- Embedding of `eval_one_max`. When no executable exists the fitness is
`0` and no file was created; otherwise `bench` is consulted with sample
count 3 and `max` is taken: if either raises, the exception propagates
before `os.remove`, so the executable remains on disk (second component
`true`). -/
def eval_one_max (exeExists : Bool) (bench : Nat → Option (List Nat)) :
    Option Nat × Bool :=
  if exeExists then
    match bench 3 with
    | none => (none, true)
    | some samples =>
      match pyMax samples with
      | none => (none, true)
      | some m => (some m, false)
  else (some 0, false)

/-! ## Genetic operators (lines 108-117)

Initialization draws gene `i` by `random.randint(0, len(options[i])-1)`
(both bounds inclusive); crossover is DEAP `tools.cxTwoPoint` (swap the
aligned slice `[p1:p2]` between the two parents); mutation is DEAP
`tools.mutFlipBit` with `indpb = 0.05`, whose per-gene action on a selected
gene `g` is `individual[i] = type(individual[i])(not individual[i])`, i.e.
`int(not g)`. Randomness is passed in explicitly: a draw function for
initialization, the two cut points for crossover, and per-gene coins (the
outcomes of `random.random() < indpb`) for mutation. -/

/-- `random.randint(lo, hi)` (inclusive) driven by a raw draw `r`: the
uniform reduction of `r` into `[lo, hi]`. -/
def randint (lo hi r : Nat) : Nat := lo + r % (hi + 1 - lo)

/-- Gene stream of `tools.initCycle`: gene `i` is
`randint 0 (len(group_i) - 1)` on the `i`-th raw draw. -/
def initFrom (rand : Nat → Nat) : Nat → List (List (Option (List Char))) → List Nat
  | _, [] => []
  | i, grp :: os => randint 0 (grp.length - 1) (rand i) :: initFrom rand (i + 1) os

/-- Embedding of `toolbox.individual` (lines 108-113): one uniformly drawn
valid index per option group, in group order. -/
def initIndividual (rand : Nat → Nat) (os : List (List (Option (List Char)))) :
    List Nat :=
  initFrom rand 0 os

/-- Position-wise view of the slice swap of `tools.cxTwoPoint`: position
`i` of the first child takes the second parent's gene when `p1 ≤ i < p2`
and the first parent's gene otherwise. -/
def cxSwapSeg (p1 p2 : Nat) : Nat → List Nat → List Nat → List Nat
  | _, [], _ => []
  | _, x :: xs, [] => x :: xs
  | i, x :: xs, y :: ys =>
    (if p1 ≤ i && i < p2 then y else x) :: cxSwapSeg p1 p2 (i + 1) xs ys

/-- Embedding of `tools.cxTwoPoint` for the cut points `p1 ≤ p2`: both
children, each position holding one of its parents' genes at that same
position. -/
def cxTwoPoint (p1 p2 : Nat) (a b : List Nat) : List Nat × List Nat :=
  (cxSwapSeg p1 p2 0 a b, cxSwapSeg p1 p2 0 b a)

/-- Python `int(not g)`: `1` when the gene is `0` (falsy), `0` otherwise.
This is what `tools.mutFlipBit` assigns to a mutated gene. -/
def pyNotInt (g : Nat) : Nat := if g = 0 then 1 else 0

/-- Embedding of `tools.mutFlipBit` with the per-gene mutation coins made
explicit: a gene whose coin is `true` (i.e. `random.random() < indpb`) is
replaced by `int(not gene)`, the others are kept. -/
def mutFlipBit : List Bool → List Nat → List Nat
  | _, [] => []
  | [], x :: xs => x :: mutFlipBit [] xs
  | c :: cs, x :: xs => (if c then pyNotInt x else x) :: mutFlipBit cs xs

/-! ## Toolchain invocation (lines 28-30, 43-47, 50-59)

`build` assembles the `g++` command line and calls `subprocess.call`,
DISCARDING its return value, then returns the filename unconditionally —
it has no error channel at all. `profile_build` chains: instrumented build,
one `bench` run of the binary with output discarded, rebuild with
`-fprofile-use` to the same filename, again with no checks. The effect of
one toolchain invocation on the output file is abstracted by whether the
compile produced the file: on success the file holds the newly produced
binary, on failure the previous content is untouched. -/

/-- The fixed source file list of lines 28-30. -/
def files : List String :=
  ["src/benchmark.cpp", "src/bitbase.cpp", "src/bitboard.cpp", "src/endgame.cpp",
   "src/evaluate.cpp", "src/main.cpp", "src/material.cpp", "src/misc.cpp",
   "src/movegen.cpp", "src/movepick.cpp", "src/pawns.cpp", "src/position.cpp",
   "src/psqt.cpp", "src/search.cpp", "src/thread.cpp", "src/timeman.cpp",
   "src/tt.cpp", "src/uci.cpp", "src/ucioption.cpp", "src/syzygy/tbprobe.cpp"]

/-- The fixed baseline argument set of line 45, after `.split(' ')`. -/
def default_options : List String :=
  ["-march=native", "-m64", "-O3", "-DNDEBUG", "-DIS_64BIT", "-msse", "-msse3",
   "-mpopcnt", "-DUSE_POPCNT", "-DUSE_PEXT", "-mbmi2"]

/-- The command line issued by `build` (line 46). -/
def build_cmd (build_options : List String) (filename : String) : List String :=
  ["g++"] ++ files ++ default_options ++ build_options ++ ["-lpthread", "-o", filename]

/-- Content of the candidate executable path. -/
inductive ExeContent
  | absent
  | instrumented
  | optimized
deriving DecidableEq

/-- Effect of one toolchain invocation on the output path: a successful
compile overwrites the path with the produced binary, a failed compile
leaves the previous content. `build` itself never inspects the outcome. -/
def buildEffect (ok : Bool) (produced before : ExeContent) : ExeContent :=
  if ok then produced else before

/-- Embedding of `profile_build` (lines 50-59) at the file-content level:
phase (a) may write the instrumented binary, phase (b) runs the binary with
its output discarded (no file change), phase (c) may overwrite with the
optimized binary. The second component records whether `profile_build`
signalled an error — it never does, since no phase's outcome is examined. -/
def profile_build_fs (aOk cOk : Bool) (before : ExeContent) : ExeContent × Bool :=
  (buildEffect cOk ExeContent.optimized (buildEffect aOk ExeContent.instrumented before),
   false)

/-- The three commands issued by `profile_build`, in order: instrumented
build, one discarded-output workload run, profile-consuming rebuild to the
same filename. -/
def profile_build_cmds (opts : List String) (filename : String) : List (List String) :=
  [build_cmd (opts ++ ["-fprofile-generate", "-lgcov"]) filename,
   [filename, "bench"],
   build_cmd (opts ++ ["-fprofile-use", "-lgcov"]) filename]

/-- The evaluation pipeline seen from `build`: `subprocess.call`'s exit
code is received and DISCARDED (line 46); `eval_one_max` then proceeds
solely on whether the output file exists. -/
def build_and_eval (_exitCode : Nat) (producesFile : Bool)
    (bench : Nat → Option (List Nat)) : Option Nat × Bool :=
  eval_one_max producesFile bench

/-! ## Parallel evaluation (lines 120-121)

`pool.map(eval_one_max, population)` distributes the evaluations over the
worker pool; workers may finish in any order, and `Pool.map` places each
result back at the index of its input. The completion order is modelled as
an explicit list of indices; `fillResults` writes each finished result
into its own slot. -/

/-- Result table of a pool run with completion order `order`: slot `i`
receives `f xs[i]` when task `i` completes; slots of tasks that never
complete stay `none`. -/
def fillResults {α β : Type} (f : α → β) (xs : List α) (order : List Nat) :
    List (Option β) :=
  order.foldl (fun acc i => acc.set i ((xs.get? i).map f))
    (List.replicate xs.length none)

/-! ## Helper lemmas for Python `max` -/

/-- The fold of binary `max` produces either the seed or a list element. -/
theorem foldl_max_mem (xs : List Nat) (a : Nat) :
    xs.foldl Nat.max a = a ∨ xs.foldl Nat.max a ∈ xs := by
  induction xs generalizing a with
  | nil => exact Or.inl rfl
  | cons x xs ih =>
    rcases ih (Nat.max a x) with h | h
    · have hm : Nat.max a x = a ∨ Nat.max a x = x := by
        rcases Nat.le_total a x with hax | hax
        · exact Or.inr (Nat.max_eq_right hax)
        · exact Or.inl (Nat.max_eq_left hax)
      rcases hm with hm | hm
      · exact Or.inl (by rw [List.foldl_cons, h, hm])
      · exact Or.inr (by rw [List.foldl_cons, h, hm]; exact List.mem_cons_self _ _)
    · exact Or.inr (List.mem_cons_of_mem _ h)

/-- The fold of binary `max` bounds the seed and every list element. -/
theorem foldl_max_le (xs : List Nat) (a : Nat) :
    a ≤ xs.foldl Nat.max a ∧ ∀ x ∈ xs, x ≤ xs.foldl Nat.max a := by
  induction xs generalizing a with
  | nil => exact ⟨Nat.le_refl _, fun x hx => absurd hx (List.not_mem_nil x)⟩
  | cons y ys ih =>
    obtain ⟨h1, h2⟩ := ih (Nat.max a y)
    refine ⟨Nat.le_trans (Nat.le_max_left a y) h1, fun x hx => ?_⟩
    rcases List.mem_cons.mp hx with rfl | hx
    · exact Nat.le_trans (Nat.le_max_right a x) h1
    · exact h2 x hx

/-- Python `max` of a nonempty list is a member of the list. -/
theorem pyMax_mem {l : List Nat} {m : Nat} (h : pyMax l = some m) : m ∈ l := by
  cases l with
  | nil => exact absurd h (by simp [pyMax])
  | cons x xs =>
    have hm : xs.foldl Nat.max x = m := by simpa [pyMax] using h
    subst hm
    rcases foldl_max_mem xs x with h' | h'
    · rw [h']; exact List.mem_cons_self _ _
    · exact List.mem_cons_of_mem _ h'

/-- Python `max` of a nonempty list bounds every member. -/
theorem pyMax_ge {l : List Nat} {m : Nat} (h : pyMax l = some m) :
    ∀ x ∈ l, x ≤ m := by
  cases l with
  | nil => exact absurd h (by simp [pyMax])
  | cons x xs =>
    have hm : xs.foldl Nat.max x = m := by simpa [pyMax] using h
    subst hm
    intro y hy
    rcases List.mem_cons.mp hy with rfl | hy
    · exact (foldl_max_le xs y).1
    · exact (foldl_max_le xs x).2 y hy

/-! ## Claims C1, C4, C5 — the evaluation pipeline -/

/-- C1: `eval_one_max` uses the single-phase build and then `bench` with
sample count 3: if the build left no executable the fitness is exactly `0`;
otherwise the fitness is the maximum of the benchmark samples; with a stub
benchmark oracle returning `[900, 1000, 950]` the fitness is `1000`
(independently of the genome, which `eval_one_max` only sees through the
two oracles). -/
theorem eval_uses_build_then_max :
    ∀ (exeExists : Bool) (bench : Nat → Option (List Nat)) (samples : List Nat),
    (exeExists = false → eval_one_max exeExists bench = (some 0, false)) ∧
    (bench 3 = some samples → samples ≠ [] →
      ∃ m, (eval_one_max true bench).1 = some m ∧ m ∈ samples ∧
        ∀ x ∈ samples, x ≤ m) ∧
    (eval_one_max true (fun _ => some [900, 1000, 950])).1 = some 1000 := by
  intro exeExists bench samples
  refine ⟨fun h => by simp [eval_one_max, h], fun h hne => ?_, by decide⟩
  cases samples with
  | nil => exact absurd rfl hne
  | cons x xs =>
    refine ⟨xs.foldl Nat.max x, ?_, ?_, ?_⟩
    · simp [eval_one_max, h, pyMax]
    · exact pyMax_mem (l := x :: xs) rfl
    · exact pyMax_ge (l := x :: xs) rfl

/-- Witness for C1: with the stub benchmark samples `[900, 1000, 950]`, a
failed build scores `0` and a successful build scores `1000`. -/
theorem eval_uses_build_then_max_witness :
    eval_one_max false (fun _ => some [900, 1000, 950]) = (some 0, false) ∧
    (eval_one_max true (fun _ => some [900, 1000, 950])).1 = some 1000 :=
  ⟨(eval_uses_build_then_max false (fun _ => some [900, 1000, 950]) []).1 rfl,
   (eval_uses_build_then_max true (fun _ => some [900, 1000, 950]) []).2.2⟩

/-- C4 counterexample: when the build succeeds but benchmarking parses zero
samples, `max([])` raises before `os.remove` is reached — the evaluation
ends with an escaping exception (`none` fitness) AND the executable is
still on disk (second component `true`), contradicting the claim that no
candidate executable remains after an evaluation completes with an error. -/
theorem cleanup_counterexample :
    eval_one_max true (fun _ => some []) = (none, true) := by decide

/-- C4 amended: the executable is removed on the success path (at least one
sample parsed), and on the build-failure path no executable exists; but an
evaluation in which benchmarking yields zero samples propagates an
exception before `os.remove`, leaving the executable on disk. -/
theorem cleanup_amended :
    ∀ (bench : Nat → Option (List Nat)) (samples : List Nat),
    (eval_one_max false bench).2 = false ∧
    (bench 3 = some samples → samples ≠ [] →
      (eval_one_max true bench).2 = false) := by
  intro bench samples
  refine ⟨by simp [eval_one_max], fun h hne => ?_⟩
  cases samples with
  | nil => exact absurd rfl hne
  | cons x xs => simp [eval_one_max, h, pyMax]

/-- Witness for the amended C4: both the build-failure path and a
successful benchmark leave no executable behind. -/
theorem cleanup_amended_witness :
    (eval_one_max false (fun _ => some [900, 1000, 950])).2 = false ∧
    (eval_one_max true (fun _ => some [900, 1000, 950])).2 = false :=
  ⟨(cleanup_amended (fun _ => some [900, 1000, 950]) []).1,
   (cleanup_amended (fun _ => some [900, 1000, 950]) [900, 1000, 950]).2 rfl
     (by decide)⟩

/-- C5: when all 3 benchmark runs yield zero matching samples, the
evaluation surfaces an error — `max([])` raises `ValueError`, so the
fitness channel carries no value at all — rather than silently defaulting
to some fitness. -/
theorem zero_samples_surface_error :
    ∀ (bench : Nat → Option (List Nat)), bench 3 = some [] →
    (eval_one_max true bench).1 = none := by
  intro bench h
  simp [eval_one_max, h, pyMax]

/-- Witness for C5 at the concrete empty-sample benchmark oracle. -/
theorem zero_samples_surface_error_witness :
    (eval_one_max true (fun _ => some [])).1 = none :=
  zero_samples_surface_error (fun _ => some []) rfl

/-! ## Claim C2 — the mutation operator -/

/-- C2 (code bug): the registered mutation operator is `tools.mutFlipBit`,
whose action on a mutated gene `g` is `int(not g)`. Evaluating it on each
gene value of a 4-option group: a mutated `1`, `2` or `3` becomes `0` and
a mutated `0` becomes `1` — never a freshly drawn index, and the values
`2` and `3` can never result from a mutation. -/
theorem mutFlipBit_failing_input :
    mutFlipBit [true] [1] = [0] ∧ mutFlipBit [true] [2] = [0] ∧
    mutFlipBit [true] [3] = [0] ∧ mutFlipBit [true] [0] = [1] := by decide

/-! ## Claims C7, C8 — build error handling -/

/-- C7 counterexample: with phase (a) succeeding and the phase (c) rebuild
failing, `profile_build` signals no error (second component `false`) and
the phase-(a) instrumented binary is the final content at the output path —
contradicting both halves of the claim. -/
theorem profile_build_counterexample :
    profile_build_fs true false ExeContent.absent =
      (ExeContent.instrumented, false) := by decide

/-- C7 amended: `profile_build` performs the three phases in order
(instrumented build, one discarded-output workload run, rebuild with
profile consumption to the same path) but never signals a `BuildError`;
when the rebuild succeeds the optimized binary is delivered, and when the
rebuild fails after a successful instrumented build, the instrumented
binary remains at the output path. -/
theorem profile_build_amended :
    ∀ (opts : List String) (filename : String) (aOk cOk : Bool)
      (before : ExeContent),
    profile_build_cmds opts filename =
      [build_cmd (opts ++ ["-fprofile-generate", "-lgcov"]) filename,
       [filename, "bench"],
       build_cmd (opts ++ ["-fprofile-use", "-lgcov"]) filename] ∧
    (profile_build_fs aOk cOk before).2 = false ∧
    (cOk = true → (profile_build_fs aOk cOk before).1 = ExeContent.optimized) ∧
    (cOk = false → aOk = true →
      (profile_build_fs aOk cOk before).1 = ExeContent.instrumented) := by
  intro opts filename aOk cOk before
  refine ⟨rfl, rfl, fun hc => ?_, fun hc ha => ?_⟩
  · simp [profile_build_fs, buildEffect, hc]
  · simp [profile_build_fs, buildEffect, hc, ha]

/-- Witness for the amended C7: a fully successful run delivers the
optimized binary and never signals an error. -/
theorem profile_build_amended_witness :
    (profile_build_fs true true ExeContent.absent).1 = ExeContent.optimized ∧
    (profile_build_fs true false ExeContent.absent).2 = false :=
  ⟨(profile_build_amended [] "stockfish" true true ExeContent.absent).2.2.1 rfl,
   (profile_build_amended [] "stockfish" true false ExeContent.absent).2.1⟩

/-- C8 counterexample: with toolchain exit status `2` but the output file
present, the pipeline behaves exactly as with exit status `0` — it
benchmarks and returns the samples' maximum as fitness instead of taking
the build-failure path — so a non-zero exit status is NOT detected as a
build failure. -/
theorem build_error_counterexample :
    build_and_eval 2 true (fun _ => some [5]) = (some 5, false) ∧
    build_and_eval 2 true (fun _ => some [5]) =
      build_and_eval 0 true (fun _ => some [5]) := by decide

/-- C8 amended: `build` returns the output path unconditionally and never
inspects the toolchain exit status — the pipeline's behaviour is invariant
under the exit status; a build failure is detected downstream exactly by
the absence of the output file, in which case the fitness is `0`. -/
theorem build_error_amended :
    ∀ (e eA : Nat) (p : Bool) (bench : Nat → Option (List Nat)),
    build_and_eval e p bench = build_and_eval eA p bench ∧
    (p = false → build_and_eval e p bench = (some 0, false)) := by
  intro e eA p bench
  exact ⟨rfl, fun h => by simp [build_and_eval, eval_one_max, h]⟩

/-- Witness for the amended C8: a missing output file yields fitness `0`
regardless of the (discarded) exit status. -/
theorem build_error_amended_witness :
    build_and_eval 7 false (fun _ => some [1]) = (some 0, false) ∧
    build_and_eval 7 false (fun _ => some [1]) =
      build_and_eval 0 false (fun _ => some [1]) :=
  ⟨(build_error_amended 7 0 false (fun _ => some [1])).2 rfl,
   (build_error_amended 7 0 false (fun _ => some [1])).1⟩

/-! ## Claim C6 — genome decoding -/

/-- Shape of every loaded option group: the sentinel `none` at index 0
followed by the `some`-wrapped tokens of the line. -/
theorem loadOptions_shape (lines : List (List Char)) :
    ∀ grp ∈ loadOptions lines, ∃ toks : List (List Char), grp = none :: toks.map some := by
  intro grp hg
  obtain ⟨line, _, rfl⟩ := List.mem_map.mp hg
  exact ⟨pySplit ' ' line, rfl⟩

/-- On catalogs whose groups have the loaded shape (sentinel exactly at
index 0), the code's `is not None` filter agrees with the spec's
"gene is not the sentinel index 0" filter. -/
theorem i2p_eq_decodeSpec :
    ∀ (os : List (List (Option (List Char)))) (g : List Nat),
    (∀ grp ∈ os, ∃ toks : List (List Char), grp = none :: toks.map some) →
    validGenome g os = true →
    individual_to_parameters os g = some (decodeSpec os g) := by
  intro os g
  induction g generalizing os with
  | nil =>
    intro _ hvalid
    cases os with
    | nil => rfl
    | cons grp os' => rfl
  | cons v vs ih =>
    intro hshape hvalid
    cases os with
    | nil => simp [validGenome] at hvalid
    | cons grp os' =>
      obtain ⟨toks, rfl⟩ := hshape _ (List.mem_cons_self _ _)
      simp only [validGenome, Bool.and_eq_true, decide_eq_true_eq] at hvalid
      have hrec := ih os' (fun g' hg => hshape g' (List.mem_cons_of_mem _ hg)) hvalid.2
      cases v with
      | zero =>
        simpa [individual_to_parameters, decodeSpec] using hrec
      | succ j =>
        have hj : j < toks.length := by
          have := hvalid.1
          simp only [List.length_cons, List.length_map] at this
          omega
        obtain ⟨tok, htok⟩ : ∃ t, toks[j]? = some t :=
          ⟨_, List.getElem?_eq_getElem hj⟩
        simp [individual_to_parameters, decodeSpec, htok, hrec]

/-- C6: `individual_to_parameters` is a pure function of the genome and
catalog; on every loaded catalog and valid genome it emits, in group
order, exactly the selected option of each group whose gene is not the
sentinel index 0 (the sentinel itself is never emitted) — this is the
spec-side `decodeSpec`; on the two-group catalog of the example, genome
`[2, 1]` decodes to `["-flagA2", "-flagB1"]` and `[0, 0]` to `[]`. -/
theorem decode_matches_spec :
    ∀ (lines : List (List Char)) (genome : List Nat),
    (validGenome genome (loadOptions lines) = true →
      individual_to_parameters (loadOptions lines) genome =
        some (decodeSpec (loadOptions lines) genome)) ∧
    individual_to_parameters
        (loadOptions ["-flagA1 -flagA2".toList, "-flagB1".toList]) [2, 1] =
      some ["-flagA2".toList, "-flagB1".toList] ∧
    individual_to_parameters
        (loadOptions ["-flagA1 -flagA2".toList, "-flagB1".toList]) [0, 0] =
      some [] := by
  intro lines genome
  exact ⟨fun hv => i2p_eq_decodeSpec _ _ (loadOptions_shape lines) hv,
    by decide, by decide⟩

/-- Witness for C6 at the concrete two-group catalog and genome `[2, 1]`. -/
theorem decode_matches_spec_witness :
    individual_to_parameters
        (loadOptions ["-flagA1 -flagA2".toList, "-flagB1".toList]) [2, 1] =
      some (decodeSpec
        (loadOptions ["-flagA1 -flagA2".toList, "-flagB1".toList]) [2, 1]) :=
  (decode_matches_spec ["-flagA1 -flagA2".toList, "-flagB1".toList] [2, 1]).1
    (by decide)

/-! ## Claim C10 — benchmark output parsing -/

/-- The parsing loop of `bench_engine` computes exactly the marker-line
digit-concatenation samples, provided every marker-bearing line carries at
least one digit (otherwise `int('')` raises). -/
theorem bench_eq_specLines :
    ∀ (content : List (List Char)),
    (∀ line ∈ content, containsSub marker line = true →
      line.filter Char.isDigit ≠ []) →
    bench_engine content = some (benchSpecLines content) := by
  intro content
  induction content with
  | nil => intro _; rfl
  | cons line rest ih =>
    intro h
    have hrec := ih (fun l hl hc => h l (List.mem_cons_of_mem _ hl) hc)
    by_cases hm : containsSub marker line = true
    · have hd : line.filter Char.isDigit ≠ [] := h line (List.mem_cons_self _ _) hm
      have hfe : (line.filter Char.isDigit).isEmpty = false := by
        cases hq : line.filter Char.isDigit with
        | nil => exact absurd hq hd
        | cons c cs => rfl
      simp [bench_engine, benchSpecLines, hm, pyInt, hfe, hrec,
        List.filterMap_cons]
    · have hm' : containsSub marker line = false := by
        simpa using hm
      simp [bench_engine, benchSpecLines, hm', hrec, List.filterMap_cons]

/-- C10: over the combined output buffer of all runs (each run appends its
lines to the one shared file, so the buffer is the concatenation in run
order), every line containing the marker `Nodes/second` contributes
exactly one sample — the integer formed by deleting every non-digit
character of the ENTIRE line and concatenating the remaining digits — and
lines without the marker contribute nothing. -/
theorem bench_marker_lines :
    ∀ (runs : List (List (List Char))),
    (∀ line ∈ runs.flatten, containsSub marker line = true →
      line.filter Char.isDigit ≠ []) →
    bench_engine_runs runs = some (benchSpecLines runs.flatten) := by
  intro runs h
  exact bench_eq_specLines _ h

/-- Witness for C10: a line `"at 2023 Nodes/second : 1500"` merges ALL its
digits into the single sample `20231500`, and a markerless line from a
second run contributes nothing. -/
theorem bench_marker_lines_witness :
    bench_engine_runs
        [["at 2023 Nodes/second : 1500".toList], ["hello 42".toList]] =
      some [20231500] :=
  (bench_marker_lines
      [["at 2023 Nodes/second : 1500".toList], ["hello 42".toList]]
      (by decide)).trans (by decide)

/-! ## Claim C3 — genome invariants under the GA operators -/

/-- Python's `split(' ')` never returns an empty list of pieces. -/
theorem pySplit_ne_nil (sep : Char) (l : List Char) : pySplit sep l ≠ [] := by
  induction l with
  | nil => simp [pySplit]
  | cons c cs ih =>
    simp only [pySplit]
    split
    · simp
    · split
      · simp
      · simp

/-- Every loaded option group has at least two entries: the prepended
sentinel plus at least one token of the split line. -/
theorem loadOptions_group_len (lines : List (List Char)) :
    ∀ grp ∈ loadOptions lines, 2 ≤ grp.length := by
  intro grp hg
  obtain ⟨line, _, rfl⟩ := List.mem_map.mp hg
  have hpos : 0 < (pySplit ' ' line).length :=
    List.length_pos.mpr (pySplit_ne_nil ' ' line)
  simp only [List.length_cons, List.length_map]
  omega

/-- A genome accepted by `validGenome` has exactly one gene per group. -/
theorem validGenome_length :
    ∀ (g : List Nat) (os : List (List (Option (List Char)))),
    validGenome g os = true → g.length = os.length := by
  intro g
  induction g with
  | nil =>
    intro os h
    cases os with
    | nil => rfl
    | cons grp os' => simp [validGenome] at h
  | cons x xs ih =>
    intro os h
    cases os with
    | nil => simp [validGenome] at h
    | cons grp os' =>
      simp only [validGenome, Bool.and_eq_true] at h
      simp [List.length_cons, ih os' h.2]

/-- The gene stream of initialization is valid for any catalog of nonempty
groups: gene `i` is a uniform draw reduced into `[0, len(group_i) - 1]`. -/
theorem initFrom_valid (rand : Nat → Nat) :
    ∀ (os : List (List (Option (List Char)))) (i : Nat),
    (∀ grp ∈ os, 0 < grp.length) →
    validGenome (initFrom rand i os) os = true := by
  intro os
  induction os with
  | nil => intro i _; rfl
  | cons grp os' ih =>
    intro i h
    have hlen : 0 < grp.length := h grp (List.mem_cons_self _ _)
    have hgene : randint 0 (grp.length - 1) (rand i) < grp.length := by
      have hmod : rand i % (grp.length - 1 + 1 - 0) < grp.length - 1 + 1 - 0 :=
        Nat.mod_lt _ (by omega)
      simp only [randint]
      omega
    simp only [initFrom, validGenome, Bool.and_eq_true, decide_eq_true_eq]
    exact ⟨hgene, ih (i + 1) (fun g hg => h g (List.mem_cons_of_mem _ hg))⟩

/-- Each position of a two-point crossover child holds one of its parents'
genes at that same position, so validity is preserved. -/
theorem cxSwapSeg_valid (p1 p2 : Nat) :
    ∀ (os : List (List (Option (List Char)))) (a b : List Nat) (i : Nat),
    validGenome a os = true → validGenome b os = true →
    validGenome (cxSwapSeg p1 p2 i a b) os = true := by
  intro os
  induction os with
  | nil =>
    intro a b i ha hb
    cases a with
    | nil =>
      cases b with
      | nil => rfl
      | cons y ys => simp [validGenome] at hb
    | cons x xs => simp [validGenome] at ha
  | cons grp os' ih =>
    intro a b i ha hb
    cases a with
    | nil => simp [validGenome] at ha
    | cons x xs =>
      cases b with
      | nil => simp [validGenome] at hb
      | cons y ys =>
        simp only [validGenome, Bool.and_eq_true, decide_eq_true_eq] at ha hb
        simp only [cxSwapSeg, validGenome, Bool.and_eq_true, decide_eq_true_eq]
        refine ⟨?_, ih xs ys (i + 1) ha.2 hb.2⟩
        split
        · exact hb.1
        · exact ha.1

/-- A mutated gene is `int(not g)` ∈ {0, 1}, valid in any group holding at
least the sentinel and one real option; unmutated genes stay valid. -/
theorem mutFlipBit_valid :
    ∀ (os : List (List (Option (List Char)))) (g : List Nat)
      (coins : List Bool),
    (∀ grp ∈ os, 2 ≤ grp.length) → validGenome g os = true →
    validGenome (mutFlipBit coins g) os = true := by
  intro os
  induction os with
  | nil =>
    intro g coins _ hv
    cases g with
    | nil => cases coins <;> rfl
    | cons x xs => simp [validGenome] at hv
  | cons grp os' ih =>
    intro g coins h2 hv
    cases g with
    | nil => simp [validGenome] at hv
    | cons x xs =>
      simp only [validGenome, Bool.and_eq_true, decide_eq_true_eq] at hv
      have hlen := h2 grp (List.mem_cons_self _ _)
      have h2' : ∀ grp' ∈ os', 2 ≤ grp'.length :=
        fun g' hg => h2 g' (List.mem_cons_of_mem _ hg)
      have hnot : pyNotInt x < grp.length := by
        have : pyNotInt x ≤ 1 := by
          by_cases hx : x = 0 <;> simp [pyNotInt, hx]
        omega
      cases coins with
      | nil =>
        simp only [mutFlipBit, validGenome, Bool.and_eq_true, decide_eq_true_eq]
        exact ⟨hv.1, ih xs [] h2' hv.2⟩
      | cons c cs =>
        simp only [mutFlipBit, validGenome, Bool.and_eq_true, decide_eq_true_eq]
        refine ⟨?_, ih xs cs h2' hv.2⟩
        cases c with
        | false => simpa using hv.1
        | true => simpa using hnot

/-- C3: for any loadable catalog, initialization produces a valid genome;
two-point crossover and mutation map valid genomes to valid genomes (both
children of a crossover); and a valid genome has length exactly the number
of groups, every gene strictly below its group's size. -/
theorem ga_operators_preserve_validity :
    ∀ (lines : List (List Char)) (rand : Nat → Nat) (p1 p2 : Nat)
      (coins : List Bool) (g1 g2 g : List Nat),
    validGenome (initIndividual rand (loadOptions lines)) (loadOptions lines)
        = true ∧
    (validGenome g1 (loadOptions lines) = true →
      validGenome g2 (loadOptions lines) = true →
      validGenome (cxTwoPoint p1 p2 g1 g2).1 (loadOptions lines) = true ∧
      validGenome (cxTwoPoint p1 p2 g1 g2).2 (loadOptions lines) = true) ∧
    (validGenome g (loadOptions lines) = true →
      validGenome (mutFlipBit coins g) (loadOptions lines) = true) ∧
    (validGenome g (loadOptions lines) = true →
      g.length = (loadOptions lines).length) := by
  intro lines rand p1 p2 coins g1 g2 g
  have h2 := loadOptions_group_len lines
  have h1 : ∀ grp ∈ loadOptions lines, 0 < grp.length := by
    intro grp hg
    have := h2 grp hg
    omega
  exact ⟨initFrom_valid rand _ 0 h1,
    fun ha hb => ⟨cxSwapSeg_valid p1 p2 _ g1 g2 0 ha hb,
      cxSwapSeg_valid p1 p2 _ g2 g1 0 hb ha⟩,
    fun hv => mutFlipBit_valid _ g coins h2 hv,
    fun hv => validGenome_length g _ hv⟩

/-- Witness for C3 on the one-group catalog loaded from `"-a -b"` with
concrete draws, cut points, coins and parent genomes. -/
theorem ga_operators_preserve_validity_witness :
    validGenome (initIndividual (fun n => n + 5) (loadOptions ["-a -b".toList]))
        (loadOptions ["-a -b".toList]) = true ∧
    validGenome (cxTwoPoint 0 1 [1] [2]).1 (loadOptions ["-a -b".toList])
        = true ∧
    validGenome (mutFlipBit [true] [0]) (loadOptions ["-a -b".toList])
        = true :=
  ⟨(ga_operators_preserve_validity ["-a -b".toList] (fun n => n + 5)
      0 1 [true] [1] [2] [0]).1,
   ((ga_operators_preserve_validity ["-a -b".toList] (fun n => n + 5)
      0 1 [true] [1] [2] [0]).2.1 (by decide) (by decide)).1,
   (ga_operators_preserve_validity ["-a -b".toList] (fun n => n + 5)
      0 1 [true] [1] [2] [0]).2.2.1 (by decide)⟩

/-! ## Claim C9 — order preservation of the parallel map -/

/-- Writing a slot and reading it back. -/
theorem get?_set_self {γ : Type} :
    ∀ (l : List γ) (i : Nat) (v : γ), i < l.length →
    (l.set i v).get? i = some v := by
  intro l
  induction l with
  | nil => intro i v h; simp at h
  | cons x xs ih =>
    intro i v h
    cases i with
    | zero => rfl
    | succ j => exact ih j v (by simpa using h)

/-- Writing one slot leaves every other slot unchanged. -/
theorem get?_set_other {γ : Type} :
    ∀ (l : List γ) (i j : Nat) (v : γ), i ≠ j →
    (l.set i v).get? j = l.get? j := by
  intro l
  induction l with
  | nil => intro i j v _; cases i <;> rfl
  | cons x xs ih =>
    intro i j v hij
    cases i with
    | zero =>
      cases j with
      | zero => exact absurd rfl hij
      | succ k => rfl
    | succ m =>
      cases j with
      | zero => rfl
      | succ k => exact ih m k v (fun he => hij (by rw [he]))

/-- The result table keeps the length of the population. -/
theorem fill_foldl_length {α β : Type} (f : α → β) (xs : List α) :
    ∀ (order : List Nat) (acc : List (Option β)),
    (order.foldl (fun a i => a.set i ((xs.get? i).map f)) acc).length
      = acc.length := by
  intro order
  induction order with
  | nil => intro acc; rfl
  | cons i rest ih =>
    intro acc
    rw [List.foldl_cons, ih, List.length_set]

/-- A slot whose task never completes keeps its previous content. -/
theorem fill_foldl_not_mem {α β : Type} (f : α → β) (xs : List α) :
    ∀ (order : List Nat) (acc : List (Option β)) (j : Nat), j ∉ order →
    (order.foldl (fun a i => a.set i ((xs.get? i).map f)) acc).get? j
      = acc.get? j := by
  intro order
  induction order with
  | nil => intro acc j _; rfl
  | cons i rest ih =>
    intro acc j h
    have hji : i ≠ j := fun he => h (he ▸ List.mem_cons_self _ _)
    rw [List.foldl_cons, ih _ j (fun hr => h (List.mem_cons_of_mem _ hr)),
      get?_set_other _ i j _ hji]

/-- A slot whose task completes holds that task's result, no matter where
in the completion order the task finished. -/
theorem fill_foldl_mem {α β : Type} (f : α → β) (xs : List α) :
    ∀ (order : List Nat) (acc : List (Option β)) (j : Nat),
    j ∈ order → j < acc.length →
    (order.foldl (fun a i => a.set i ((xs.get? i).map f)) acc).get? j
      = some ((xs.get? j).map f) := by
  intro order
  induction order with
  | nil => intro acc j h _; exact absurd h (List.not_mem_nil j)
  | cons i rest ih =>
    intro acc j hmem hlt
    rw [List.foldl_cons]
    by_cases hr : j ∈ rest
    · exact ih _ j hr (by rw [List.length_set]; exact hlt)
    · have hji : j = i := by
        rcases List.mem_cons.mp hmem with h | h
        · exact h
        · exact absurd h hr
      subst hji
      rw [fill_foldl_not_mem f xs rest _ j hr]
      exact get?_set_self _ j _ hlt

/-- C9: for every population, the table of results assembled from the
workers — whatever order they complete in, as long as each of the `P`
tasks completes — is exactly the input-ordered list of the `P` fitness
values, position for position. -/
theorem pool_map_preserves_order {α β : Type} (f : α → β) :
    ∀ (xs : List α) (order : List Nat),
    (∀ i, i < xs.length → i ∈ order) →
    fillResults f xs order = xs.map (fun x => some (f x)) := by
  intro xs order h
  apply List.ext_get?_iff.mpr
  intro j
  by_cases hj : j < xs.length
  · have hlhs :
        (fillResults f xs order).get? j = some ((xs.get? j).map f) :=
      fill_foldl_mem f xs order _ j (h j hj)
        (by rw [List.length_replicate]; exact hj)
    obtain ⟨x, hx⟩ : ∃ x, xs.get? j = some x := ⟨_, List.get?_eq_get hj⟩
    rw [hlhs, List.get?_map, hx]
    rfl
  · have h1 : (fillResults f xs order).get? j = none := by
      apply List.get?_eq_none.mpr
      rw [show (fillResults f xs order).length
            = (List.replicate xs.length (none : Option β)).length from
          fill_foldl_length f xs order _]
      rw [List.length_replicate]
      omega
    have h2 : (xs.map (fun x => some (f x))).get? j = none := by
      apply List.get?_eq_none.mpr
      rw [List.length_map]
      omega
    rw [h1, h2]

/-- Witness for C9: three tasks completing in the order 2, 0, 1 still
yield the results in input order. -/
theorem pool_map_preserves_order_witness :
    fillResults (fun x => x + 1) [10, 20, 30] [2, 0, 1] =
      [some 11, some 21, some 31] :=
  (pool_map_preserves_order (fun x => x + 1) [10, 20, 30] [2, 0, 1]
    (by decide)).trans (by decide)

end Fishbuilder
